import Mathlib

/-
Shallow embedding of the host-side orchestration logic of the
bert-ipu-quickstart repository (src/bert/bert.py and
src/bert/bert_tf_loader.py).  Machine floating-point numbers are modelled
as rationals, numpy arrays as Lean lists or index functions, and fallible
numpy operations as Option/Except values.
-/

/-- Python `collections.deque(maxlen := cap)` append (bert.py lines
405-416 create the windows, 419-430 append to them): the new element goes
on the right and, when the deque already holds `cap` entries, the oldest
(leftmost) entry is discarded. -/
def pushBounded (cap : ℕ) (q : List α) (x : α) : List α :=
  let q' := q ++ [x]
  if cap < q'.length then q'.drop (q'.length - cap) else q'

/-- Mean of a list of rationals, modelling `np.average` / `np.mean` on a
non-empty array.  On an empty array numpy returns NaN; the callers modelled
here either guard that case explicitly (`bert_output_stats` via its
Option result) or do not depend on the value. -/
def listAvg (l : List ℚ) : ℚ := l.sum / l.length

/-- One (label, prediction, loss) triple handed to `bert_output_stats`
(bert.py lines 335-363): the per-position label values, the per-position
argmax predictions read from `anchors`, and the per-position loss values
read from `anchors`.  Arrays are modelled as functions from the flattened
batch-position index; all triples share the common position range
`0 .. n-1` as the numpy arrays share one shape. -/
structure OutputTriple where
  label : ℕ → ℤ
  pred : ℕ → ℤ
  lossv : ℕ → ℚ

/-- Lines 336-339: `label != ignore_index` when an ignore index is given,
otherwise an all-true mask. -/
def padMask (ignore : Option ℤ) (t : OutputTriple) (i : ℕ) : Bool :=
  match ignore with
  | some v => t.label i != v
  | none => true

/-- Line 342: `num_losses = np.sum(np.array(padding_masks, dtype=np.int8),
axis=0)`, the number of objectives whose mask is true at position `i`. -/
def numLosses (ignore : Option ℤ) (triples : List OutputTriple) (i : ℕ) : ℕ :=
  triples.countP (fun t => padMask ignore t i)

/-- Lines 344-346: each loss anchor is zeroed where its own mask is false
and the losses are then summed position-wise into `combined_loss`. -/
def combinedLoss (ignore : Option ℤ) (triples : List OutputTriple) (i : ℕ) : ℚ :=
  (triples.map (fun t => if padMask ignore t i then t.lossv i else 0)).sum

/-- Lines 343 and 348: the batch positions kept by
`master_mask = num_losses != 0`. -/
def retainedPositions (ignore : Option ℤ) (n : ℕ) (triples : List OutputTriple) : List ℕ :=
  (List.range n).filter (fun i => numLosses ignore triples i != 0)

/-- Lines 355-360: `total_correct`, counting for every triple the positions
where its mask is true and `pred == label`. -/
def totalCorrect (ignore : Option ℤ) (n : ℕ) (triples : List OutputTriple) : ℕ :=
  (triples.map (fun t =>
    ((List.range n).filter (fun i => padMask ignore t i && (t.pred i == t.label i))).length)).sum

/-- `bert_output_stats` (bert.py lines 335-363) over `n` batch positions.
The result is `none` in the numerically undefined case (`np.mean` of an
empty filtered array at line 353 and `total_correct / 0` at line 362, both
unguarded in the source), which arises exactly when the code's
`total_attempted` is zero. -/
def bert_output_stats (ignore : Option ℤ) (n : ℕ) (triples : List OutputTriple) :
    Option (ℚ × ℚ) :=
  let retained := retainedPositions ignore n triples
  let total_attempted := (retained.map (numLosses ignore triples)).sum
  if total_attempted = 0 then none
  else
    some (listAvg (retained.map (fun i =>
            combinedLoss ignore triples i / (numLosses ignore triples i : ℚ))),
          (totalCorrect ignore n triples : ℚ) / (total_attempted : ℚ))

/-- Specification-side accuracy denominator, following the spec's words:
the total number of unmasked (triple, position) pairs, counted over all
batch positions rather than only the retained ones.  Used to compare the
code's `total_attempted` against the spec's description. -/
def countUnmaskedPairs (ignore : Option ℤ) (n : ℕ) (triples : List OutputTriple) : ℕ :=
  (triples.map (fun t => ((List.range n).filter (fun i => padMask ignore t i)).length)).sum

/-- State of the `Iteration` bookkeeping object (bert.py lines 388-416).
The Python object carries either the single-objective windows
(`losses`/`accuracies`) or the pretraining windows (`mlm_*`/`nsp_*`)
depending on the task; the model carries both sets of fields and the
`pretraining` flag selects which ones the operations touch.  `scalars`
records the `writer.add_scalar(name, value, step)` calls. -/
structure Iteration where
  count : ℕ
  epoch : ℕ
  epochs : ℕ
  epochs_per_save : ℕ
  steps_per_log : ℕ
  samples_per_step : ℚ
  steps_per_epoch : ℕ
  learning_rate : ℚ
  recording_steps : ℕ
  pretraining : Bool
  durations : List ℚ
  cycles : List ℕ
  losses : List ℚ
  accuracies : List ℚ
  mlm_losses : List ℚ
  nsp_losses : List ℚ
  mlm_accuracies : List ℚ
  nsp_accuracies : List ℚ
  scalars : List (String × ℚ × ℕ)
deriving DecidableEq

/-- `Iteration.add_stats` (bert.py lines 418-430 and 443-451),
single-objective branch.  The `(loss, accuracy)` pair is the value
`self.stats_fn(*args)` returned for this batch.  `hw` models the
`hw_cycles` argument; by Python truthiness both `None` and `0` skip the
cycles append. -/
def Iteration.add_stats_single (it : Iteration) (duration : ℚ) (hw : Option ℕ)
    (loss accuracy : ℚ) : Iteration :=
  let durations := pushBounded it.recording_steps it.durations duration
  let cycles := match hw with
    | some c => if c = 0 then it.cycles else pushBounded it.recording_steps it.cycles c
    | none => it.cycles
  let losses := pushBounded it.recording_steps it.losses loss
  let accuracies := pushBounded it.recording_steps it.accuracies accuracy
  { it with
    durations := durations
    cycles := cycles
    losses := losses
    accuracies := accuracies
    scalars := it.scalars ++
      [("defaultLearningRate", it.learning_rate, it.count),
       ("loss", listAvg losses, it.count),
       ("accuracy", listAvg accuracies, it.count)] }

/-- `Iteration.add_stats` (bert.py lines 418-442), pretraining branch, where
`stats_fn` returned the MLM/NSP loss and accuracy lists. -/
def Iteration.add_stats_pretraining (it : Iteration) (duration : ℚ) (hw : Option ℕ)
    (mlmLoss nspLoss mlmAcc nspAcc : ℚ) : Iteration :=
  let durations := pushBounded it.recording_steps it.durations duration
  let cycles := match hw with
    | some c => if c = 0 then it.cycles else pushBounded it.recording_steps it.cycles c
    | none => it.cycles
  let mlm_losses := pushBounded it.recording_steps it.mlm_losses mlmLoss
  let nsp_losses := pushBounded it.recording_steps it.nsp_losses nspLoss
  let mlm_accuracies := pushBounded it.recording_steps it.mlm_accuracies mlmAcc
  let nsp_accuracies := pushBounded it.recording_steps it.nsp_accuracies nspAcc
  { it with
    durations := durations
    cycles := cycles
    mlm_losses := mlm_losses
    nsp_losses := nsp_losses
    mlm_accuracies := mlm_accuracies
    nsp_accuracies := nsp_accuracies
    scalars := it.scalars ++
      [("defaultLearningRate", it.learning_rate, it.count),
       ("loss/MLM", listAvg mlm_losses, it.count),
       ("loss/NSP", listAvg nsp_losses, it.count),
       ("accuracy/MLM", listAvg mlm_accuracies, it.count),
       ("accuracy/NSP", listAvg nsp_accuracies, it.count)] }

/-- `Iteration.throughput` (bert.py lines 453-455): `np.divide` broadcasts
`samples_per_step` over every recorded duration, so the throughput series
is derived from the duration window on every access. -/
def Iteration.throughput (it : Iteration) : List ℚ :=
  it.durations.map (fun d => it.samples_per_step / d)

/-- Values interpolated into the status line by `Iteration.report_stats`
(bert.py lines 457-477); the textual number formatting is not modelled. -/
structure ReportLine where
  iter : ℕ
  epochProgress : ℚ
  lossAvgs : List ℚ
  accAvgs : List ℚ
  learningRate : ℚ
  durationAvg : ℚ
  throughputAvg : ℚ
  cyclesAvg : Option ℚ
deriving DecidableEq

/-- `Iteration.report_stats` (bert.py lines 457-477) modelled as a method
call: it returns the receiver (which the body never assigns to) together
with the values it reports.  The `Cycles` component is present only when
the cycles window is non-empty (`if self.cycles:`). -/
def Iteration.report_stats (it : Iteration) : Iteration × ReportLine :=
  (it,
   { iter := it.count
     epochProgress := (it.count : ℚ) / (it.steps_per_epoch : ℚ)
     lossAvgs :=
       if it.pretraining then [listAvg it.mlm_losses, listAvg it.nsp_losses]
       else [listAvg it.losses]
     accAvgs :=
       if it.pretraining then [listAvg it.mlm_accuracies, listAvg it.nsp_accuracies]
       else [listAvg it.accuracies]
     learningRate := it.learning_rate
     durationAvg := listAvg it.durations
     throughputAvg := listAvg it.throughput
     cyclesAvg :=
       if it.cycles.isEmpty then none
       else some ((it.cycles.map (fun c => (c : ℚ))).sum / (it.cycles.length : ℚ)) })

/-- One batch as seen by `bert_process_data`, together with the externally
produced per-batch quantities: the label arrays `[data[label] for label in
labels]`, the measured engine-call duration, the optional hardware cycle
count, and the `(loss, accuracy)` pair `stats_fn` computes for the batch. -/
structure SimBatch where
  labels : List (List ℕ)
  duration : ℚ
  hwCycles : Option ℕ
  loss : ℚ
  accuracy : ℚ
deriving DecidableEq

/-- Line 484: `not np.any([np.any(label) for label in labels_data])` — true
exactly when every element of every (unsigned) label array is zero. -/
def allPadding (labels : List (List ℕ)) : Bool :=
  !(labels.any (fun l => l.any (fun x => x != 0)))

/-- Host-side state threaded through the training loop: the `Iteration`
object, the number of `session.run` calls made, and the `iteration.count`
value at each `save_model_and_stats` call. -/
structure SimState where
  it : Iteration
  engineRuns : ℕ
  saves : List ℕ
deriving DecidableEq

/-- `bert_process_data` (bert.py lines 480-513) for the single-objective
task.  An all-padding batch returns at line 486 before anything else
happens.  Otherwise the engine runs, `add_stats` records the batch,
`report_stats` fires on the `steps_per_log` boundary (returning the state
unchanged), the optimizer-factory update (which only touches session and
optimizer state, none of the fields modelled here) runs, and finally
`iteration.count` is incremented (line 513). -/
def bert_process_data (b : SimBatch) (s : SimState) : SimState :=
  if allPadding b.labels then s
  else
    let it1 := s.it.add_stats_single b.duration b.hwCycles b.loss b.accuracy
    let it2 := if it1.count % it1.steps_per_log = 0 then it1.report_stats.1 else it1
    { s with
      engineRuns := s.engineRuns + 1
      it := { it2 with count := it2.count + 1 } }

/-- `save_model_and_stats` (bert.py lines 374-385): unless `--no-model-save`
was given, the current weights are persisted to disk; the model records the
`iteration.count` value at which each save happened. -/
def save_model_and_stats (noModelSave : Bool) (s : SimState) : SimState :=
  if noModelSave then s else { s with saves := s.saves ++ [s.it.count] }

/-- Command-line arguments consumed by `bert_train_loop`.  `steps_per_save`
and `epochs_per_save` use `0` for "disabled": the Python code tests `> 0`,
so every non-positive value behaves the same way. -/
structure TrainArgs where
  epochs : ℕ
  start_epoch : ℕ
  steps_per_save : ℕ
  epochs_per_save : ℕ
  no_model_save : Bool
deriving DecidableEq

/-- Body of the inner batch loop of `bert_train_loop` (bert.py lines
623-628): process one batch, then save when `steps_per_save` is positive
and the post-processing step counter is a multiple of it. -/
def train_batch_step (a : TrainArgs) (s : SimState) (b : SimBatch) : SimState :=
  let s' := bert_process_data b s
  if 0 < a.steps_per_save ∧ s'.it.count % a.steps_per_save = 0
  then save_model_and_stats a.no_model_save s' else s'

/-- Body of the epoch loop of `bert_train_loop` (bert.py lines 622-631):
set `iteration.epoch` to the loop index, run every batch of the dataset,
then save when `epochs_per_save` is positive and the epoch index is a
multiple of it. -/
def train_epoch_step (a : TrainArgs) (dataset : List SimBatch) (s : SimState) (e : ℕ) : SimState :=
  let se := { s with it := { s.it with epoch := e } }
  let sd := dataset.foldl (train_batch_step a) se
  if 0 < a.epochs_per_save ∧ e % a.epochs_per_save = 0
  then save_model_and_stats a.no_model_save sd else sd

/-- `bert_train_loop` (bert.py lines 615-633): one save up front, then for
each `iteration.epoch` in `range(start_epoch, epochs)` every batch of the
dataset is processed, with a save after each batch whose resulting count is
a multiple of `steps_per_save` (when positive), a save at each epoch whose
index is a multiple of `epochs_per_save` (when positive), and one final
save after the loop. -/
def bert_train_loop (a : TrainArgs) (dataset : List SimBatch) (s0 : SimState) : SimState :=
  save_model_and_stats a.no_model_save
    ((List.range' a.start_epoch (a.epochs - a.start_epoch)).foldl
      (train_epoch_step a dataset)
      (save_model_and_stats a.no_model_save s0))

/-- One fold step of Python `min`/`max` with `key = lambda k: times[k][-1]`
over a timing dictionary (bert.py lines 516-525).  `none` models the
exception Python raises when a timing list is empty (`v[-1]`).  `better xl
bl` decides whether candidate `x` replaces the current best; the comparison
is strict, so the first extremum is kept, as Python's `min`/`max` do. -/
def argStep (better : ℚ → ℚ → Bool) (acc : Option (String × List ℚ))
    (x : String × List ℚ) : Option (String × List ℚ) := do
  let best ← acc
  let bl ← best.2.getLast?
  let xl ← x.2.getLast?
  pure (if better xl bl then x else best)

/-- Python `min(ts, key = last element)` / `max(ts, key = last element)` on
an association-list model of the timing dictionaries; `none` on an empty
dictionary or an empty timing list (Python raises in both cases). -/
def argBy (better : ℚ → ℚ → Bool) : List (String × List ℚ) → Option (String × List ℚ)
  | [] => none
  | t :: rest => rest.foldl (argStep better) (if t.2.isEmpty then none else some t)

/-- `get_timing_start_anchor` (bert.py lines 516-519): the entry whose last
recorded time is smallest. -/
def get_timing_start_anchor (ts : List (String × List ℚ)) : Option (String × List ℚ) :=
  argBy (fun a b => decide (a < b)) ts

/-- `get_timing_end_anchor` (bert.py lines 522-525): the entry whose last
recorded time is largest. -/
def get_timing_end_anchor (ts : List (String × List ℚ)) : Option (String × List ℚ) :=
  argBy (fun a b => decide (b < a)) ts

/-- `compute_latency` (bert.py lines 558-576).  In the low-latency SQuAD
branch the round-trip times are the pairwise differences between the start
anchor's input timestamps and the end anchor's output timestamps; a count
different from `batches_per_step` raises `RuntimeError` (modelled as
`Except.error`), otherwise the mean, min and max are returned.  Outside the
branch the function returns `(None, None, None)`. -/
def compute_latency (low_latency : Bool) (task : String) (batches_per_step : ℕ)
    (start_times end_times : List (String × List ℚ)) :
    Except String (Option ℚ × Option ℚ × Option ℚ) :=
  if low_latency && (task == "SQUAD") then
    match get_timing_start_anchor start_times, get_timing_end_anchor end_times with
    | some s, some e =>
      let rtts := List.zipWith (fun a b => b - a) s.2 e.2
      if rtts.length ≠ batches_per_step then
        .error "Number of timings does not match items in the batch. Something is wrong."
      else
        .ok (some (rtts.sum / (batches_per_step : ℚ)), rtts.min?, rtts.max?)
    | _, _ => .error "timing anchor lookup failed: empty measurement data"
  else
    .ok (none, none, none)

/-- Dense two-dimensional checkpoint array: a shape plus an entry function
(entries outside the shape are irrelevant to the modelled operations). -/
structure NArray where
  rows : ℕ
  cols : ℕ
  data : ℕ → ℕ → ℚ

/-- The three attention parts whose kernels map to one `QKV` target tensor
(`name.split("/")[-2]` at bert_tf_loader.py line 105). -/
inductive QKVPart
  | query
  | key
  | value
deriving DecidableEq

/-- Start of each part's reserved column slice (`qkv_tensor_range`,
bert_tf_loader.py lines 90-94), with `h = config.hidden_size`. -/
def qkvStart (h : ℕ) : QKVPart → ℕ
  | .query => 0
  | .key => h
  | .value => 2 * h

/-- End of each part's reserved column slice; every range has width `h`. -/
def qkvEnd (h : ℕ) (p : QKVPart) : ℕ := qkvStart h p + h

/-- Lazily created QKV buffer (lines 107-111): `none` entries model the
uninitialised memory of `np.empty`. -/
structure QKVBuf where
  rows : ℕ
  cols : ℕ
  data : ℕ → ℕ → Option ℚ

/-- `np.empty((array.shape[0], array.shape[1] * 3), dtype)` (lines
108-111): shape taken from the first-encountered part, contents
uninitialised. -/
def mkQKVBuf (a : NArray) : QKVBuf := ⟨a.rows, 3 * a.cols, fun _ _ => none⟩

/-- `initializers[mapping[name]][:, start_idx:end_idx] = array` (line 115).
The guard models numpy's broadcast-compatibility check for the slice
assignment; on the consistently shaped checkpoints considered here it
always succeeds. -/
def qkv_write (h : ℕ) (buf : QKVBuf) (p : QKVPart) (a : NArray) : Option QKVBuf :=
  if a.rows = buf.rows ∧ a.cols = h ∧ qkvEnd h p ≤ buf.cols then
    let wr := fun r c =>
      if qkvStart h p ≤ c ∧ c < qkvEnd h p then some (a.data r (c - qkvStart h p))
      else buf.data r c
    some { buf with data := wr }
  else none

/-- One iteration of the `generate_initializers` loop restricted to the QKV
branch (lines 104-117): create the buffer on first encounter, then write
the part's reserved slice. -/
def step_qkv (h : ℕ) (acc : Except String (Option QKVBuf)) (e : QKVPart × NArray) :
    Except String (Option QKVBuf) :=
  match acc with
  | .error m => .error m
  | .ok prev =>
    match qkv_write h (prev.getD (mkQKVBuf e.2)) e.1 e.2 with
    | some b => .ok (some b)
    | none => .error "could not broadcast checkpoint array into the QKV slice"

/-- The QKV checkpoint entries of one layer as processed in encounter order
by `generate_initializers` (lines 96-117); the result is the layer's
attention QKV initializer buffer, `none` when the checkpoint supplied no
part at all. -/
def process_qkv (h : ℕ) (entries : List (QKVPart × NArray)) : Except String (Option QKVBuf) :=
  entries.foldl (step_qkv h) (.ok none)

/-- Expected concatenated QKV buffer: the query, key and value arrays side
by side in their reserved column slices of one `(R, 3h)` buffer. -/
def canonicalQKV (h R : ℕ) (f : QKVPart → NArray) : QKVBuf :=
  ⟨R, 3 * h, fun r c =>
    if c < h then some ((f .query).data r c)
    else if c < 2 * h then some ((f .key).data r (c - h))
    else if c < 3 * h then some ((f .value).data r (c - 2 * h))
    else none⟩

/-- Vocabulary pad/crop for `Embedding/Embedding_Dict`
(bert_tf_loader.py lines 119-129).  When the configured vocabulary is
larger than the checkpoint's, zero rows of width `hidden_size` are
appended (`np.concatenate` fails if the widths differ, modelled by the
`none` case); otherwise the table is cropped to its first `vocab_length`
rows by slicing. -/
def resize_vocab (vocab_length hidden_size : ℕ) (a : NArray) : Option NArray :=
  if a.rows < vocab_length then
    if a.cols = hidden_size then
      some ⟨vocab_length, a.cols, fun r c => if r < a.rows then a.data r c else 0⟩
    else none
  else
    some ⟨min vocab_length a.rows, a.cols, a.data⟩

/-- `np.transpose` (line 131). -/
def np_transpose (a : NArray) : NArray := ⟨a.cols, a.rows, fun r c => a.data c r⟩

/-- Per-entry transform of `generate_initializers` for tensors that did not
take the QKV branch (lines 119-135): the vocabulary pad/crop applies only
to the word-embedding table, then the gather-mode transpose applies to the
two dictionary tensors.  `gather` models `"gather" in config.custom_ops`;
the dtype cast (lines 99-100) and the defensive `.copy()` (line 135) do
not change values and are not modelled. -/
def transform_entry (gather : Bool) (vocab_length hidden_size : ℕ)
    (target : String) (a : NArray) : Option NArray :=
  match (if target = "Embedding/Embedding_Dict"
         then resize_vocab vocab_length hidden_size a else some a) with
  | none => none
  | some a1 =>
    some (if gather ∧ (target = "Embedding/Embedding_Dict" ∨ target = "Embedding/Positional_Dict")
          then np_transpose a1 else a1)

/-- Small concrete `Iteration` used by witnesses: single-objective task,
window capacity 3, all windows empty. -/
def itW : Iteration :=
  { count := 0, epoch := 0, epochs := 1, epochs_per_save := 0, steps_per_log := 1
    samples_per_step := 8, steps_per_epoch := 3, learning_rate := 0
    recording_steps := 3, pretraining := false
    durations := [], cycles := [], losses := [], accuracies := []
    mlm_losses := [], nsp_losses := [], mlm_accuracies := [], nsp_accuracies := []
    scalars := [] }

/-- Concrete loop state used by witnesses. -/
def sW : SimState := { it := itW, engineRuns := 0, saves := [] }

/-- Concrete non-padding batch used by witnesses. -/
def bW : SimBatch := { labels := [[1]], duration := 1, hwCycles := none, loss := 2, accuracy := 1 }

/-- Concrete all-padding batch (every label element zero). -/
def bPad : SimBatch := { labels := [[0, 0], [0]], duration := 1, hwCycles := none, loss := 2, accuracy := 1 }

/-- Concrete output triple used by witnesses: two positions, the first
carries a real label. -/
def trW : OutputTriple :=
  { label := fun i => if i = 0 then 7 else 0, pred := fun _ => 7, lossv := fun _ => 4 }

/-- Concrete output triple whose labels are all the MLM ignore value 0. -/
def trIgn : OutputTriple := { label := fun _ => 0, pred := fun _ => 7, lossv := fun _ => 4 }

/-- Concrete per-part checkpoint arrays used by the QKV witnesses:
shape (2, 1), valued by part. -/
def wQArr : QKVPart → NArray :=
  fun p => ⟨2, 1, fun r _ => (match p with | .query => 10 | .key => 20 | .value => 30) + r⟩

/-- Concrete checkpoint embedding table used by the vocabulary witness:
2 rows, 3 columns. -/
def eArrW : NArray := ⟨2, 3, fun r c => (r : ℚ) * 10 + c⟩

/-
Helper lemmas shared by the claim theorems.
-/

theorem pushBounded_eq_drop (cap : ℕ) (q : List α) (x : α) :
    pushBounded cap q x = (q ++ [x]).drop (q.length + 1 - cap) := by
  by_cases hc : cap < q.length + 1
  · rw [pushBounded]
    simp [List.length_append, hc]
  · rw [pushBounded]
    have h0 : q.length + 1 - cap = 0 := by omega
    simp [List.length_append, hc, h0]

theorem pushBounded_length_le (cap : ℕ) (q : List α) (x : α) (h : q.length ≤ cap) :
    (pushBounded cap q x).length ≤ cap := by
  rw [pushBounded_eq_drop]
  simp only [List.length_drop, List.length_append, List.length_cons, List.length_nil]
  omega

/-
Claim theorems.
-/

/-- Claim C8: `Iteration.report_stats` does not mutate any `Iteration`
state (every tracked field is returned unchanged), and the throughput it
reports is derived as `samples_per_step` divided by each recorded duration
rather than read from stored state. -/
theorem iteration_report_stats_pure (it : Iteration) :
    it.report_stats.1 = it ∧
    it.report_stats.2.throughputAvg =
      listAvg (it.durations.map (fun d => it.samples_per_step / d)) ∧
    it.throughput = it.durations.map (fun d => it.samples_per_step / d) :=
  ⟨rfl, rfl, rfl⟩

/-- Claim C1, counterexample: for a batch whose label fields are entirely
the padding value, `bert_process_data` returns the state unchanged, so the
iteration step counter does NOT increment by 1 as the claim states. -/
theorem bert_process_data_all_padding_keeps_count :
    bert_process_data bPad sW = sW ∧
    (bert_process_data bPad sW).it.count ≠ sW.it.count + 1 := by
  refine ⟨rfl, ?_⟩
  decide

/-- Claim C1 (amended): for every batch whose label fields are entirely the
ignore/padding value, `bert_process_data` skips the batch completely — no
metrics recorded, no scalar emitted, no engine run, and the iteration step
counter left unchanged (the early return at line 486 precedes the increment
at line 513); for every processed batch the engine runs once and the step
counter increments by exactly 1. -/
theorem bert_process_data_skip_spec (b : SimBatch) (s : SimState) :
    (allPadding b.labels = true → bert_process_data b s = s) ∧
    (allPadding b.labels = false →
      (bert_process_data b s).engineRuns = s.engineRuns + 1 ∧
      (bert_process_data b s).it.count = s.it.count + 1 ∧
      (bert_process_data b s).it.durations =
        pushBounded s.it.recording_steps s.it.durations b.duration) := by
  constructor
  · intro h
    simp [bert_process_data, h]
  · intro h
    simp [bert_process_data, h, Iteration.report_stats, Iteration.add_stats_single]

theorem bert_process_data_skip_spec_witness :
    allPadding bPad.labels = true ∧ allPadding bW.labels = false ∧
    bert_process_data bPad sW = sW ∧
    (bert_process_data bW sW).it.count = sW.it.count + 1 :=
  ⟨rfl, rfl, (bert_process_data_skip_spec bPad sW).1 rfl,
   ((bert_process_data_skip_spec bW sW).2 rfl).2.1⟩

/-- Claim C6: for every `Iteration` object whose rolling windows respect
the configured capacity `recording_steps`, an `add_stats` call (either
branch) keeps every window within capacity, and an insert that would
exceed capacity evicts the oldest entry first (each updated window is the
old window with the new value appended and the front dropped down to
capacity); with capacity 3 and 5 distinct inserted values exactly the last
3 are retained in insertion order. -/
theorem iteration_rolling_windows_bounded
    (it : Iteration) (d : ℚ) (hw : Option ℕ) (l a ml nl ma na : ℚ)
    (hdur : it.durations.length ≤ it.recording_steps)
    (hcyc : it.cycles.length ≤ it.recording_steps)
    (hlos : it.losses.length ≤ it.recording_steps)
    (hacc : it.accuracies.length ≤ it.recording_steps)
    (hml : it.mlm_losses.length ≤ it.recording_steps)
    (hnl : it.nsp_losses.length ≤ it.recording_steps)
    (hma : it.mlm_accuracies.length ≤ it.recording_steps)
    (hna : it.nsp_accuracies.length ≤ it.recording_steps) :
    ((it.add_stats_single d hw l a).durations =
        (it.durations ++ [d]).drop (it.durations.length + 1 - it.recording_steps) ∧
      (it.add_stats_single d hw l a).losses =
        (it.losses ++ [l]).drop (it.losses.length + 1 - it.recording_steps) ∧
      (it.add_stats_single d hw l a).accuracies =
        (it.accuracies ++ [a]).drop (it.accuracies.length + 1 - it.recording_steps) ∧
      (it.add_stats_single d hw l a).durations.length ≤ it.recording_steps ∧
      (it.add_stats_single d hw l a).losses.length ≤ it.recording_steps ∧
      (it.add_stats_single d hw l a).accuracies.length ≤ it.recording_steps ∧
      (it.add_stats_single d hw l a).cycles.length ≤ it.recording_steps ∧
      (∀ c : ℕ, hw = some c → c ≠ 0 →
        (it.add_stats_single d hw l a).cycles =
          (it.cycles ++ [c]).drop (it.cycles.length + 1 - it.recording_steps))) ∧
    ((it.add_stats_pretraining d hw ml nl ma na).mlm_losses =
        (it.mlm_losses ++ [ml]).drop (it.mlm_losses.length + 1 - it.recording_steps) ∧
      (it.add_stats_pretraining d hw ml nl ma na).nsp_losses =
        (it.nsp_losses ++ [nl]).drop (it.nsp_losses.length + 1 - it.recording_steps) ∧
      (it.add_stats_pretraining d hw ml nl ma na).mlm_accuracies =
        (it.mlm_accuracies ++ [ma]).drop (it.mlm_accuracies.length + 1 - it.recording_steps) ∧
      (it.add_stats_pretraining d hw ml nl ma na).nsp_accuracies =
        (it.nsp_accuracies ++ [na]).drop (it.nsp_accuracies.length + 1 - it.recording_steps) ∧
      (it.add_stats_pretraining d hw ml nl ma na).mlm_losses.length ≤ it.recording_steps ∧
      (it.add_stats_pretraining d hw ml nl ma na).nsp_losses.length ≤ it.recording_steps ∧
      (it.add_stats_pretraining d hw ml nl ma na).mlm_accuracies.length ≤ it.recording_steps ∧
      (it.add_stats_pretraining d hw ml nl ma na).nsp_accuracies.length ≤ it.recording_steps ∧
      (it.add_stats_pretraining d hw ml nl ma na).durations.length ≤ it.recording_steps ∧
      (it.add_stats_pretraining d hw ml nl ma na).cycles.length ≤ it.recording_steps) ∧
    List.foldl (pushBounded 3) [] [(1 : ℚ), 2, 3, 4, 5] = [3, 4, 5] := by
  have hcycLen : ∀ q : List ℕ,
      q.length ≤ it.recording_steps →
      (match hw with
        | some c => if c = 0 then q else pushBounded it.recording_steps q c
        | none => q).length ≤ it.recording_steps := by
    intro q hq
    cases hw with
    | none => exact hq
    | some c =>
      by_cases hc : c = 0
      · simpa [hc] using hq
      · simpa [hc] using pushBounded_length_le it.recording_steps q c hq
  refine ⟨⟨?_, ?_, ?_, ?_, ?_, ?_, ?_, ?_⟩, ⟨?_, ?_, ?_, ?_, ?_, ?_, ?_, ?_, ?_, ?_⟩, ?_⟩
  · simp [Iteration.add_stats_single, pushBounded_eq_drop]
  · simp [Iteration.add_stats_single, pushBounded_eq_drop]
  · simp [Iteration.add_stats_single, pushBounded_eq_drop]
  · simpa [Iteration.add_stats_single] using
      pushBounded_length_le it.recording_steps it.durations d hdur
  · simpa [Iteration.add_stats_single] using
      pushBounded_length_le it.recording_steps it.losses l hlos
  · simpa [Iteration.add_stats_single] using
      pushBounded_length_le it.recording_steps it.accuracies a hacc
  · simpa [Iteration.add_stats_single] using hcycLen it.cycles hcyc
  · intro c hcw hc0
    simp [Iteration.add_stats_single, hcw, hc0, pushBounded_eq_drop]
  · simp [Iteration.add_stats_pretraining, pushBounded_eq_drop]
  · simp [Iteration.add_stats_pretraining, pushBounded_eq_drop]
  · simp [Iteration.add_stats_pretraining, pushBounded_eq_drop]
  · simp [Iteration.add_stats_pretraining, pushBounded_eq_drop]
  · simpa [Iteration.add_stats_pretraining] using
      pushBounded_length_le it.recording_steps it.mlm_losses ml hml
  · simpa [Iteration.add_stats_pretraining] using
      pushBounded_length_le it.recording_steps it.nsp_losses nl hnl
  · simpa [Iteration.add_stats_pretraining] using
      pushBounded_length_le it.recording_steps it.mlm_accuracies ma hma
  · simpa [Iteration.add_stats_pretraining] using
      pushBounded_length_le it.recording_steps it.nsp_accuracies na hna
  · simpa [Iteration.add_stats_pretraining] using
      pushBounded_length_le it.recording_steps it.durations d hdur
  · simpa [Iteration.add_stats_pretraining] using hcycLen it.cycles hcyc
  · decide

theorem iteration_rolling_windows_bounded_witness :
    itW.durations.length ≤ itW.recording_steps ∧
    itW.cycles.length ≤ itW.recording_steps ∧
    (itW.add_stats_single 1 (some 7) 2 3).durations.length ≤ itW.recording_steps ∧
    (itW.add_stats_single 1 (some 7) 2 3).cycles =
      (itW.cycles ++ [7]).drop (itW.cycles.length + 1 - itW.recording_steps) :=
  ⟨by decide, by decide,
   (iteration_rolling_windows_bounded itW 1 (some 7) 2 3 4 5 6 7
      (by decide) (by decide) (by decide) (by decide)
      (by decide) (by decide) (by decide) (by decide)).1.2.2.2.1,
   (iteration_rolling_windows_bounded itW 1 (some 7) 2 3 4 5 6 7
      (by decide) (by decide) (by decide) (by decide)
      (by decide) (by decide) (by decide) (by decide)).1.2.2.2.2.2.2.2 7 rfl (by decide)⟩

theorem sum_map_filter_ne_zero (f : ℕ → ℕ) (l : List ℕ) :
    ((l.filter (fun i => f i != 0)).map f).sum = (l.map f).sum := by
  induction l with
  | nil => rfl
  | cons a l ih =>
    by_cases ha : f a = 0
    · simp [List.filter_cons, ha, ih]
    · simp [List.filter_cons, ha, ih]

theorem sum_map_add_nat (f g : ℕ → ℕ) (l : List ℕ) :
    (l.map (fun i => f i + g i)).sum = (l.map f).sum + (l.map g).sum := by
  induction l with
  | nil => rfl
  | cons a l ih =>
    simp only [List.map_cons, List.sum_cons, ih]
    omega

theorem sum_indicator_eq_length_filter (p : ℕ → Bool) (l : List ℕ) :
    (l.map (fun i => if p i then 1 else 0)).sum = (l.filter p).length := by
  induction l with
  | nil => rfl
  | cons a l ih =>
    by_cases hp : p a
    · simp only [List.map_cons, List.sum_cons, List.filter_cons, hp, if_pos, ih,
        List.length_cons]
      omega
    · simp [List.filter_cons, hp, ih]

theorem total_attempted_eq (ignore : Option ℤ) (n : ℕ) (triples : List OutputTriple) :
    ((retainedPositions ignore n triples).map (numLosses ignore triples)).sum =
      countUnmaskedPairs ignore n triples := by
  unfold retainedPositions
  rw [sum_map_filter_ne_zero]
  induction triples with
  | nil =>
    have hz : ∀ x ∈ (List.range n).map (numLosses ignore []), x = 0 := by
      intro x hx
      rcases List.mem_map.mp hx with ⟨i, _, hxi⟩
      simpa [numLosses] using hxi.symm
    simp [List.sum_eq_zero hz, countUnmaskedPairs]
  | cons t ts ih =>
    have hsplit : ((List.range n).map (fun i => numLosses ignore (t :: ts) i)).sum =
        ((List.range n).map (fun i =>
          numLosses ignore ts i + (if padMask ignore t i then 1 else 0))).sum := by
      apply congrArg
      apply List.map_congr_left
      intro i _
      simp [numLosses, List.countP_cons]
    rw [hsplit, sum_map_add_nat, ih, sum_indicator_eq_length_filter]
    simp [countUnmaskedPairs, Nat.add_comm]

theorem total_attempted_pos (ignore : Option ℤ) (n : ℕ) (triples : List OutputTriple)
    (hex : ∃ i, i < n ∧ ∃ t ∈ triples, padMask ignore t i = true) :
    ((retainedPositions ignore n triples).map (numLosses ignore triples)).sum ≠ 0 := by
  obtain ⟨i, hin, t, ht, hmask⟩ := hex
  have hnum : 0 < numLosses ignore triples i :=
    List.countP_pos_iff.mpr ⟨t, ht, hmask⟩
  have hiR : i ∈ retainedPositions ignore n triples := by
    refine List.mem_filter.mpr ⟨List.mem_range.mpr hin, ?_⟩
    simpa [bne_iff_ne] using hnum.ne'
  have hle : numLosses ignore triples i ≤
      ((retainedPositions ignore n triples).map (numLosses ignore triples)).sum :=
    List.single_le_sum (fun x _ => Nat.zero_le x) _
      (List.mem_map_of_mem (numLosses ignore triples) hiR)
  omega

/-- Claim C2: in `bert_output_stats`, positions where every objective's
mask is false are excluded from both the loss divisor and the accuracy
denominator, so `num_losses` is strictly positive for every retained
position; the step loss is the mean over the retained positions of the
summed masked loss divided by `num_losses`, and the accuracy equals the
number of unmasked positions where the prediction equals the label divided
by the number of unmasked positions (counted over all positions, matching
the code's retained-position sum). -/
theorem bert_output_stats_masked_spec (ignore : Option ℤ) (n : ℕ)
    (triples : List OutputTriple)
    (hex : ∃ i, i < n ∧ ∃ t ∈ triples, padMask ignore t i = true) :
    (∀ i ∈ retainedPositions ignore n triples, 0 < numLosses ignore triples i) ∧
    bert_output_stats ignore n triples =
      some (listAvg ((retainedPositions ignore n triples).map (fun i =>
              combinedLoss ignore triples i / (numLosses ignore triples i : ℚ))),
            (totalCorrect ignore n triples : ℚ) /
              (countUnmaskedPairs ignore n triples : ℚ)) := by
  constructor
  · intro i hi
    have hmem := List.mem_filter.mp hi
    have hne : numLosses ignore triples i ≠ 0 := by
      simpa [bne_iff_ne] using hmem.2
    omega
  · have hta := total_attempted_pos ignore n triples hex
    simp only [bert_output_stats]
    rw [if_neg hta, total_attempted_eq]

theorem bert_output_stats_masked_spec_witness :
    (∃ i, i < 2 ∧ ∃ t ∈ [trW], padMask (some 0) t i = true) ∧
    bert_output_stats (some 0) 2 [trW] =
      some (listAvg ((retainedPositions (some 0) 2 [trW]).map (fun i =>
              combinedLoss (some 0) [trW] i / (numLosses (some 0) [trW] i : ℚ))),
            (totalCorrect (some 0) 2 [trW] : ℚ) /
              (countUnmaskedPairs (some 0) 2 [trW] : ℚ)) :=
  ⟨⟨0, by decide, trW, by simp, by decide⟩,
   (bert_output_stats_masked_spec (some 0) 2 [trW]
      ⟨0, by decide, trW, by simp, by decide⟩).2⟩

/-- Claim C9: `bert_output_stats` with an ignore value is well-defined only
when at least one label differs from the ignore value: if every label of
every triple equals the ignore value the accuracy denominator is zero and
the unguarded divisions are undefined (result `none`); if some label
differs, the computation produces a value. -/
theorem bert_output_stats_defined_iff (v : ℤ) (n : ℕ) (triples : List OutputTriple) :
    ((∀ t ∈ triples, ∀ i, i < n → t.label i = v) →
       bert_output_stats (some v) n triples = none) ∧
    ((∃ t ∈ triples, ∃ i, i < n ∧ t.label i ≠ v) →
       ∃ p, bert_output_stats (some v) n triples = some p) := by
  constructor
  · intro hall
    have hret : retainedPositions (some v) n triples = [] := by
      unfold retainedPositions
      apply List.filter_eq_nil_iff.mpr
      intro i hi
      have hiN := List.mem_range.mp hi
      have h0 : numLosses (some v) triples i = 0 := by
        apply List.countP_eq_zero.mpr
        intro t ht
        simp [padMask, hall t ht i hiN]
      simp [h0]
    simp [bert_output_stats, hret]
  · intro hex
    obtain ⟨t, ht, i, hin, hne⟩ := hex
    have hmask : padMask (some v) t i = true := by simp [padMask, hne]
    have hta := total_attempted_pos (some v) n triples ⟨i, hin, t, ht, hmask⟩
    refine ⟨(listAvg ((retainedPositions (some v) n triples).map (fun i =>
        combinedLoss (some v) triples i / (numLosses (some v) triples i : ℚ))),
      (totalCorrect (some v) n triples : ℚ) /
        (((retainedPositions (some v) n triples).map (numLosses (some v) triples)).sum : ℚ)), ?_⟩
    simp only [bert_output_stats]
    rw [if_neg hta]

theorem bert_output_stats_defined_iff_witness :
    (∀ t ∈ [trIgn], ∀ i, i < 2 → t.label i = 0) ∧
    bert_output_stats (some 0) 2 [trIgn] = none ∧
    (∃ t ∈ [trW], ∃ i, i < 2 ∧ t.label i ≠ 0) ∧
    (∃ p, bert_output_stats (some 0) 2 [trW] = some p) :=
  ⟨fun t ht i _ => by
      rcases List.mem_singleton.mp ht with rfl
      rfl,
   (bert_output_stats_defined_iff 0 2 [trIgn]).1
     (fun t ht i _ => by
        rcases List.mem_singleton.mp ht with rfl
        rfl),
   ⟨trW, by simp, 0, by decide, by decide⟩,
   (bert_output_stats_defined_iff 0 2 [trW]).2
     ⟨trW, by simp, 0, by decide, by decide⟩⟩

/-- Claim C4: in `generate_initializers`, a checkpoint word-embedding table
with `V` rows and width `hidden_size` resizes to exactly `vocab_length`
rows — zero-padded at the bottom when the target is larger, cropped to the
first `vocab_length` rows otherwise — and the per-entry transform leaves
every tensor with a different target name unresized (unchanged up to the
gather-mode transpose, which adds or drops no entries). -/
theorem generate_initializers_vocab_resize (gather : Bool) (T h V : ℕ) (a : NArray)
    (hrows : a.rows = V) (hcols : a.cols = h) :
    (∃ out, resize_vocab T h a = some out ∧
      out.rows = T ∧ out.cols = h ∧
      (V < T → (∀ r, r < V → ∀ c, out.data r c = a.data r c) ∧
        (∀ r, V ≤ r → r < T → ∀ c, out.data r c = 0)) ∧
      (T ≤ V → ∀ r, r < T → ∀ c, out.data r c = a.data r c)) ∧
    (∀ target : String, ∀ a' : NArray, target ≠ "Embedding/Embedding_Dict" →
      transform_entry gather T h target a' = some a' ∨
      transform_entry gather T h target a' = some (np_transpose a')) := by
  constructor
  · by_cases hVT : a.rows < T
    · refine ⟨⟨T, a.cols, fun r c => if r < a.rows then a.data r c else 0⟩, ?_, rfl, hcols, ?_, ?_⟩
      · rw [resize_vocab, if_pos hVT, if_pos hcols]
      · intro _
        constructor
        · intro r hr c
          simp [hrows ▸ hr]
        · intro r hr _ c
          show (if r < a.rows then a.data r c else 0) = 0
          rw [if_neg]
          omega
      · intro hTV
        exact absurd hTV (by omega)
    · refine ⟨⟨min T a.rows, a.cols, a.data⟩, ?_, ?_, hcols, ?_, ?_⟩
      · rw [resize_vocab, if_neg hVT]
      · show min T a.rows = T
        omega
      · intro hlt
        exact absurd hlt (by omega)
      · intro _ r _ c
        rfl
  · intro target a' hne
    by_cases hg : gather = true ∧
        (target = "Embedding/Embedding_Dict" ∨ target = "Embedding/Positional_Dict")
    · obtain ⟨hgt, hor⟩ := hg
      rcases hor with h1 | h2
      · exact absurd h1 hne
      · right
        simp [transform_entry, hne, h2, hgt]
    · left
      have hred : transform_entry gather T h target a' =
          some (if gather = true ∧
              (target = "Embedding/Embedding_Dict" ∨ target = "Embedding/Positional_Dict")
            then np_transpose a' else a') := by
        simp [transform_entry, hne]
      rw [hred, if_neg hg]

theorem generate_initializers_vocab_resize_witness :
    eArrW.rows = 2 ∧ eArrW.cols = 3 ∧
    (∃ out, resize_vocab 4 3 eArrW = some out ∧
      out.rows = 4 ∧ out.cols = 3 ∧
      (2 < 4 → (∀ r, r < 2 → ∀ c, out.data r c = eArrW.data r c) ∧
        (∀ r, 2 ≤ r → r < 4 → ∀ c, out.data r c = 0)) ∧
      (4 ≤ 2 → ∀ r, r < 4 → ∀ c, out.data r c = eArrW.data r c)) :=
  ⟨rfl, rfl, (generate_initializers_vocab_resize false 4 3 2 eArrW rfl rfl).1⟩

/-- Claim C7: in the low-latency SQuAD branch, `compute_latency` raises the
fatal `RuntimeError` exactly when the number of measured round-trip deltas
differs from `batches_per_step`; when the counts match it returns the mean,
minimum and maximum of the round-trip deltas and no error is raised. -/
theorem compute_latency_mismatch_spec (bps : ℕ) (st et : List (String × List ℚ))
    (s e : String × List ℚ)
    (hs : get_timing_start_anchor st = some s)
    (he : get_timing_end_anchor et = some e) :
    ((∃ m, compute_latency true "SQUAD" bps st et = .error m) ↔
       (List.zipWith (fun a b => b - a) s.2 e.2).length ≠ bps) ∧
    ((List.zipWith (fun a b => b - a) s.2 e.2).length = bps →
       compute_latency true "SQUAD" bps st et =
         .ok (some ((List.zipWith (fun a b => b - a) s.2 e.2).sum / (bps : ℚ)),
              (List.zipWith (fun a b => b - a) s.2 e.2).min?,
              (List.zipWith (fun a b => b - a) s.2 e.2).max?)) := by
  have heval : compute_latency true "SQUAD" bps st et =
      if (List.zipWith (fun a b => b - a) s.2 e.2).length ≠ bps then
        .error "Number of timings does not match items in the batch. Something is wrong."
      else
        .ok (some ((List.zipWith (fun a b => b - a) s.2 e.2).sum / (bps : ℚ)),
             (List.zipWith (fun a b => b - a) s.2 e.2).min?,
             (List.zipWith (fun a b => b - a) s.2 e.2).max?) := by
    simp [compute_latency, hs, he]
  rw [heval]
  by_cases hlen : (List.zipWith (fun a b => b - a) s.2 e.2).length ≠ bps
  · rw [if_pos hlen]
    refine ⟨⟨fun _ => hlen, fun _ => ⟨_, rfl⟩⟩, fun hc => absurd hc hlen⟩
  · rw [if_neg hlen]
    refine ⟨⟨fun hm => ?_, fun h => absurd h hlen⟩, fun _ => rfl⟩
    obtain ⟨m, hm⟩ := hm
    exact Except.noConfusion hm

theorem compute_latency_mismatch_spec_witness :
    get_timing_start_anchor [("a", [1])] = some ("a", [1]) ∧
    get_timing_end_anchor [("b", [3])] = some ("b", [3]) ∧
    (List.zipWith (fun a b => b - a) [(1 : ℚ)] [(3 : ℚ)]).length = 1 ∧
    compute_latency true "SQUAD" 1 [("a", [1])] [("b", [3])] =
      .ok (some ((List.zipWith (fun a b => b - a) [(1 : ℚ)] [(3 : ℚ)]).sum / ((1 : ℕ) : ℚ)),
           (List.zipWith (fun a b => b - a) [(1 : ℚ)] [(3 : ℚ)]).min?,
           (List.zipWith (fun a b => b - a) [(1 : ℚ)] [(3 : ℚ)]).max?) :=
  ⟨rfl, rfl, rfl,
   (compute_latency_mismatch_spec 1 [("a", [1])] [("b", [3])] ("a", [1]) ("b", [3])
      rfl rfl).2 rfl⟩

theorem bert_process_data_frame (b : SimBatch) (s : SimState)
    (h : allPadding b.labels = false) :
    (bert_process_data b s).it.count = s.it.count + 1 ∧
    (bert_process_data b s).saves = s.saves := by
  simp [bert_process_data, h, Iteration.report_stats, Iteration.add_stats_single]

theorem train_batch_foldl_spec (a : TrainArgs) (hsp : 0 < a.steps_per_save)
    (hns : a.no_model_save = false) :
    ∀ (ds : List SimBatch), (∀ b ∈ ds, allPadding b.labels = false) →
    ∀ s : SimState,
      (ds.foldl (train_batch_step a) s).it.count = s.it.count + ds.length ∧
      (ds.foldl (train_batch_step a) s).saves =
        s.saves ++ (List.range' (s.it.count + 1) ds.length).filter
          (fun c => c % a.steps_per_save == 0) := by
  intro ds
  induction ds with
  | nil =>
    intro _ s
    simp
  | cons b ds ih =>
    intro hall s
    have hb : allPadding b.labels = false := hall b (List.mem_cons_self b ds)
    have htail : ∀ b' ∈ ds, allPadding b'.labels = false :=
      fun b' hb' => hall b' (List.mem_cons_of_mem b hb')
    have hframe := bert_process_data_frame b s hb
    rw [List.foldl_cons]
    have hcnt : (train_batch_step a s b).it.count = s.it.count + 1 := by
      unfold train_batch_step
      by_cases hdiv : (bert_process_data b s).it.count % a.steps_per_save = 0
      · rw [if_pos ⟨hsp, hdiv⟩]
        simp [save_model_and_stats, hns, hframe.1]
      · rw [if_neg (fun hc => hdiv hc.2)]
        exact hframe.1
    have hsv : (train_batch_step a s b).saves =
        s.saves ++ (if (s.it.count + 1) % a.steps_per_save = 0
          then [s.it.count + 1] else []) := by
      unfold train_batch_step
      by_cases hdiv : (s.it.count + 1) % a.steps_per_save = 0
      · have hdiv' : (bert_process_data b s).it.count % a.steps_per_save = 0 := by
          rw [hframe.1]; exact hdiv
        rw [if_pos ⟨hsp, hdiv'⟩]
        simp [save_model_and_stats, hns, hframe.1, hframe.2, hdiv]
      · have hdiv' : ¬ ((bert_process_data b s).it.count % a.steps_per_save = 0) := by
          rw [hframe.1]; exact hdiv
        rw [if_neg (fun hc => hdiv' hc.2)]
        simp [hframe.2, hdiv]
    obtain ⟨ihc, ihs⟩ := ih htail (train_batch_step a s b)
    constructor
    · rw [ihc, hcnt]
      simp only [List.length_cons]
      omega
    · rw [ihs, hsv, hcnt]
      simp only [List.length_cons]
      rw [List.range'_succ]
      rw [List.filter_cons]
      by_cases hdiv : (s.it.count + 1) % a.steps_per_save = 0
      · simp [hdiv, List.append_assoc]
      · simp [hdiv]

theorem train_epoch_step_spec (a : TrainArgs) (hsp : 0 < a.steps_per_save)
    (hns : a.no_model_save = false) (dataset : List SimBatch)
    (hall : ∀ b ∈ dataset, allPadding b.labels = false) (s : SimState) (e : ℕ) :
    (train_epoch_step a dataset s e).it.count = s.it.count + dataset.length ∧
    (train_epoch_step a dataset s e).saves =
      (s.saves ++ (List.range' (s.it.count + 1) dataset.length).filter
        (fun c => c % a.steps_per_save == 0)) ++
      (if 0 < a.epochs_per_save ∧ e % a.epochs_per_save = 0
       then [s.it.count + dataset.length] else []) := by
  unfold train_epoch_step
  obtain ⟨hc, hs⟩ := train_batch_foldl_spec a hsp hns dataset hall
      { s with it := { s.it with epoch := e } }
  by_cases heps : 0 < a.epochs_per_save ∧ e % a.epochs_per_save = 0
  · rw [if_pos heps]
    constructor
    · simp only [save_model_and_stats, hns, Bool.false_eq_true, if_neg]
      simpa using hc
    · simp only [save_model_and_stats, hns, Bool.false_eq_true, if_neg]
      simp only [hs, hc]
      simp [heps]
  · rw [if_neg heps]
    constructor
    · simpa using hc
    · simp only [hs]
      simp [heps]

theorem train_epoch_foldl_spec (a : TrainArgs) (hsp : 0 < a.steps_per_save)
    (hns : a.no_model_save = false) (dataset : List SimBatch)
    (hall : ∀ b ∈ dataset, allPadding b.labels = false) :
    ∀ (E : ℕ) (s : SimState),
      ((List.range E).foldl (train_epoch_step a dataset) s).it.count
        = s.it.count + E * dataset.length ∧
      ((List.range E).foldl (train_epoch_step a dataset) s).saves
        = s.saves ++ (List.range E).flatMap (fun e =>
            ((List.range' (s.it.count + e * dataset.length + 1) dataset.length).filter
              (fun c => c % a.steps_per_save == 0)) ++
            (if 0 < a.epochs_per_save ∧ e % a.epochs_per_save = 0
             then [s.it.count + (e + 1) * dataset.length] else [])) := by
  intro E
  induction E with
  | zero =>
    intro s
    simp
  | succ E ihE =>
    intro s
    rw [List.range_succ, List.foldl_append]
    obtain ⟨ihc, ihs⟩ := ihE s
    obtain ⟨hc1, hs1⟩ := train_epoch_step_spec a hsp hns dataset hall
        ((List.range E).foldl (train_epoch_step a dataset) s) E
    constructor
    · simp only [List.foldl_cons, List.foldl_nil]
      rw [hc1, ihc]
      ring
    · simp only [List.foldl_cons, List.foldl_nil]
      rw [hs1, ihs, ihc]
      rw [List.flatMap_append]
      have harit : s.it.count + (E + 1) * dataset.length =
          s.it.count + E * dataset.length + dataset.length := by ring
      simp [harit, List.append_assoc]

/-- Claim C5: in `bert_train_loop` (saving through
`save_model_and_stats`), weights are persisted once at loop start, after
each batch whose post-processing step count is a multiple of
`steps_per_save` (when positive), at each epoch whose index is a multiple
of `epochs_per_save` (when positive), and once at loop end; in particular
with `steps_per_save = 50`, `epochs_per_save = 0` over 120 processed steps
the saves happen at counts 0, 50, 100 and 120 — exactly 4 saves (see the
witness). -/
theorem bert_train_loop_save_schedule (a : TrainArgs) (dataset : List SimBatch)
    (s0 : SimState)
    (hsp : 0 < a.steps_per_save) (hns : a.no_model_save = false)
    (hse : a.start_epoch = 0) (hc0 : s0.it.count = 0) (hs0 : s0.saves = [])
    (hall : ∀ b ∈ dataset, allPadding b.labels = false) :
    (bert_train_loop a dataset s0).saves =
      0 :: ((List.range a.epochs).flatMap (fun e =>
        ((List.range' (e * dataset.length + 1) dataset.length).filter
          (fun c => c % a.steps_per_save == 0)) ++
        (if 0 < a.epochs_per_save ∧ e % a.epochs_per_save = 0
         then [(e + 1) * dataset.length] else [])) ++
       [a.epochs * dataset.length]) ∧
    (bert_train_loop a dataset s0).it.count = a.epochs * dataset.length := by
  unfold bert_train_loop
  rw [hse, Nat.sub_zero, ← List.range_eq_range']
  have hinit_c : (save_model_and_stats a.no_model_save s0).it.count = 0 := by
    simp [save_model_and_stats, hns, hc0]
  have hinit_s : (save_model_and_stats a.no_model_save s0).saves = [0] := by
    simp [save_model_and_stats, hns, hs0, hc0]
  obtain ⟨hc, hs⟩ := train_epoch_foldl_spec a hsp hns dataset hall a.epochs
      (save_model_and_stats a.no_model_save s0)
  have hfin_s : ∀ x : SimState,
      (save_model_and_stats a.no_model_save x).saves = x.saves ++ [x.it.count] := by
    intro x
    simp [save_model_and_stats, hns]
  have hfin_c : ∀ x : SimState,
      (save_model_and_stats a.no_model_save x).it.count = x.it.count := by
    intro x
    simp [save_model_and_stats, hns]
  constructor
  · rw [hfin_s, hs, hc, hinit_c, hinit_s]
    simp [List.append_assoc]
  · rw [hfin_c, hc, hinit_c]
    simp

set_option maxRecDepth 8000 in
theorem bert_train_loop_save_schedule_witness :
    (bert_train_loop ⟨1, 0, 50, 0, false⟩ (List.replicate 120 bW) sW).saves
      = [0, 50, 100, 120] ∧
    (bert_train_loop ⟨1, 0, 50, 0, false⟩ (List.replicate 120 bW) sW).saves.length = 4 ∧
    (bert_train_loop ⟨1, 0, 50, 0, false⟩ (List.replicate 120 bW) sW).it.count = 120 := by
  have h := bert_train_loop_save_schedule ⟨1, 0, 50, 0, false⟩ (List.replicate 120 bW) sW
      (by decide) rfl rfl rfl rfl
      (fun b hb => by
        rcases List.eq_of_mem_replicate hb with rfl
        rfl)
  have hsaves : (bert_train_loop ⟨1, 0, 50, 0, false⟩ (List.replicate 120 bW) sW).saves
      = [0, 50, 100, 120] := by
    rw [h.1]
    decide
  refine ⟨hsaves, by rw [hsaves]; rfl, ?_⟩
  rw [h.2]
  decide

theorem qkvEnd_le_three (h : ℕ) (p : QKVPart) : qkvEnd h p ≤ 3 * h := by
  cases p <;> simp [qkvStart, qkvEnd] <;> omega

theorem qkv_ranges_disjoint (h : ℕ) (p q : QKVPart) (hpq : p ≠ q) (c : ℕ)
    (h1 : qkvStart h p ≤ c) (h2 : c < qkvEnd h p) :
    ¬(qkvStart h q ≤ c ∧ c < qkvEnd h q) := by
  cases p <;> cases q <;> simp_all [qkvStart, qkvEnd] <;> omega

theorem qkv_write_of_shapes (h : ℕ) (b : QKVBuf) (p : QKVPart) (a : NArray)
    (h1 : a.rows = b.rows) (h2 : a.cols = h) (h3 : qkvEnd h p ≤ b.cols) :
    qkv_write h b p a = some
      { b with data := fun r c =>
          if qkvStart h p ≤ c ∧ c < qkvEnd h p then some (a.data r (c - qkvStart h p))
          else b.data r c } := by
  rw [qkv_write, if_pos ⟨h1, h2, h3⟩]

theorem qkv_part_cases (p1 p2 p3 q : QKVPart) (h12 : p1 ≠ p2) (h13 : p1 ≠ p3)
    (h23 : p2 ≠ p3) : q = p1 ∨ q = p2 ∨ q = p3 := by
  cases p1 <;> cases p2 <;> cases p3 <;> cases q <;> revert h12 h13 h23 <;> decide

theorem qkvBufExt (x y : QKVBuf) (h1 : x.rows = y.rows) (h2 : x.cols = y.cols)
    (h3 : x.data = y.data) : x = y := by
  cases x
  cases y
  simp_all

theorem process_qkv_go (h R : ℕ) :
    ∀ (es : List (QKVPart × NArray)) (b : QKVBuf),
      (∀ x ∈ es, x.2.rows = R ∧ x.2.cols = h) →
      (es.map Prod.fst).Nodup →
      b.rows = R → b.cols = 3 * h →
      ∃ b', es.foldl (step_qkv h) (.ok (some b)) = .ok (some b') ∧
        b'.rows = R ∧ b'.cols = 3 * h ∧
        (∀ x ∈ es, ∀ r j, j < h →
          b'.data r (qkvStart h x.1 + j) = some (x.2.data r j)) ∧
        (∀ r c, (∀ x ∈ es, ¬(qkvStart h x.1 ≤ c ∧ c < qkvEnd h x.1)) →
          b'.data r c = b.data r c) := by
  intro es
  induction es with
  | nil =>
    intro b _ _ hbr hbc
    exact ⟨b, rfl, hbr, hbc, by simp, fun r c _ => rfl⟩
  | cons x es ih =>
    intro b hsh hnd hbr hbc
    have hx := hsh x (List.mem_cons_self x es)
    have hw := qkv_write_of_shapes h b x.1 x.2 (hx.1.trans hbr.symm) hx.2
      (by rw [hbc]; exact qkvEnd_le_three h x.1)
    have hstep : step_qkv h (.ok (some b)) x = .ok (some
        { b with data := fun r c =>
            if qkvStart h x.1 ≤ c ∧ c < qkvEnd h x.1 then some (x.2.data r (c - qkvStart h x.1))
            else b.data r c }) := by
      simp [step_qkv, hw]
    rw [List.foldl_cons, hstep]
    simp only [List.map_cons, List.nodup_cons] at hnd
    obtain ⟨b', hfold, hrows, hcols, hslice, hframe⟩ := ih
        { b with data := fun r c =>
            if qkvStart h x.1 ≤ c ∧ c < qkvEnd h x.1 then some (x.2.data r (c - qkvStart h x.1))
            else b.data r c }
        (fun y hy => hsh y (List.mem_cons_of_mem x hy)) hnd.2 hbr hbc
    refine ⟨b', hfold, hrows, hcols, ?_, ?_⟩
    · intro y hy r j hj
      rcases List.mem_cons.mp hy with rfl | hy'
      · have hyrange : qkvStart h y.1 ≤ qkvStart h y.1 + j ∧
            qkvStart h y.1 + j < qkvEnd h y.1 := by
          constructor
          · exact Nat.le_add_right _ _
          · rw [qkvEnd]
            omega
        have huntouched : ∀ z ∈ es,
            ¬(qkvStart h z.1 ≤ qkvStart h y.1 + j ∧ qkvStart h y.1 + j < qkvEnd h z.1) := by
          intro z hz
          have hzy : y.1 ≠ z.1 := by
            intro he
            exact hnd.1 (he ▸ List.mem_map_of_mem Prod.fst hz)
          exact qkv_ranges_disjoint h y.1 z.1 hzy _ hyrange.1 hyrange.2
        rw [hframe _ _ huntouched]
        show (if qkvStart h y.1 ≤ qkvStart h y.1 + j ∧ qkvStart h y.1 + j < qkvEnd h y.1
          then some (y.2.data r (qkvStart h y.1 + j - qkvStart h y.1))
          else b.data r (qkvStart h y.1 + j)) = some (y.2.data r j)
        rw [if_pos hyrange, Nat.add_sub_cancel_left]
      · exact hslice y hy' r j hj
    · intro r c huntouch
      have htail : ∀ z ∈ es, ¬(qkvStart h z.1 ≤ c ∧ c < qkvEnd h z.1) :=
        fun z hz => huntouch z (List.mem_cons_of_mem x hz)
      rw [hframe r c htail]
      have hxn := huntouch x (List.mem_cons_self x es)
      show (if qkvStart h x.1 ≤ c ∧ c < qkvEnd h x.1
        then some (x.2.data r (c - qkvStart h x.1)) else b.data r c) = b.data r c
      rw [if_neg hxn]

/-- Claim C10: a layer's QKV buffer is created lazily with its shape taken
from the first-encountered part (`rows`, three times that part's column
count) and uninitialised contents; when the checkpoint supplies any subset
of the three query/key/value parts (each at most once) no error is raised:
the resulting mapping still contains the buffer, with exactly the present
parts' column slices determined and every other column left
uninitialised. -/
theorem generate_initializers_qkv_partial (h : ℕ) (e0 : QKVPart × NArray)
    (es : List (QKVPart × NArray))
    (hsh : ∀ x ∈ e0 :: es, x.2.rows = e0.2.rows ∧ x.2.cols = h)
    (hnd : ((e0 :: es).map Prod.fst).Nodup) :
    ∃ b, process_qkv h (e0 :: es) = .ok (some b) ∧
      b.rows = e0.2.rows ∧ b.cols = 3 * e0.2.cols ∧
      (∀ x ∈ e0 :: es, ∀ r j, j < h →
        b.data r (qkvStart h x.1 + j) = some (x.2.data r j)) ∧
      (∀ r c, (∀ x ∈ e0 :: es, ¬(qkvStart h x.1 ≤ c ∧ c < qkvEnd h x.1)) →
        b.data r c = none) := by
  have hcols0 : e0.2.cols = h := (hsh e0 (List.mem_cons_self e0 es)).2
  have heq : process_qkv h (e0 :: es) =
      (e0 :: es).foldl (step_qkv h) (.ok (some (mkQKVBuf e0.2))) := rfl
  obtain ⟨b, hfold, hrows, hcolsb, hslice, hframe⟩ :=
    process_qkv_go h e0.2.rows (e0 :: es) (mkQKVBuf e0.2) hsh hnd rfl
      (by rw [mkQKVBuf, hcols0])
  refine ⟨b, ?_, hrows, ?_, hslice, fun r c hc => hframe r c hc⟩
  · rw [heq, hfold]
  · rw [hcolsb, hcols0]

theorem generate_initializers_qkv_partial_witness :
    (∀ x ∈ [(QKVPart.key, wQArr .key)],
      x.2.rows = (wQArr QKVPart.key).rows ∧ x.2.cols = 1) ∧
    (∃ b, process_qkv 1 [(QKVPart.key, wQArr .key)] = .ok (some b) ∧
      b.rows = (wQArr QKVPart.key).rows ∧ b.cols = 3 * (wQArr QKVPart.key).cols ∧
      (∀ x ∈ [(QKVPart.key, wQArr .key)], ∀ r j, j < 1 →
        b.data r (qkvStart 1 x.1 + j) = some (x.2.data r j)) ∧
      (∀ r c, (∀ x ∈ [(QKVPart.key, wQArr .key)],
          ¬(qkvStart 1 x.1 ≤ c ∧ c < qkvEnd 1 x.1)) →
        b.data r c = none)) :=
  ⟨fun x hx => by
      rcases List.mem_singleton.mp hx with rfl
      exact ⟨rfl, rfl⟩,
   generate_initializers_qkv_partial 1 (QKVPart.key, wQArr .key) []
     (fun x hx => by
        rcases List.mem_singleton.mp hx with rfl
        exact ⟨rfl, rfl⟩)
     (by simp)⟩

/-- Claim C3: in `generate_initializers`, the three query/key/value source
tensors of a layer are concatenated along the output-feature axis into one
buffer of shape `(in_features, 3 * out_features)`, each part written into
its fixed reserved column slice, and processing the three parts in any
permutation order (any ordering of three distinct parts) yields the same,
byte-identical output buffer. -/
theorem generate_initializers_qkv_order_independent (h R : ℕ) (f : QKVPart → NArray)
    (hf : ∀ p, (f p).rows = R ∧ (f p).cols = h)
    (p1 p2 p3 : QKVPart) (h12 : p1 ≠ p2) (h13 : p1 ≠ p3) (h23 : p2 ≠ p3) :
    process_qkv h [(p1, f p1), (p2, f p2), (p3, f p3)] =
      .ok (some (canonicalQKV h R f)) := by
  have hsh : ∀ x ∈ [(p1, f p1), (p2, f p2), (p3, f p3)],
      x.2.rows = R ∧ x.2.cols = h := by
    intro x hx
    simp only [List.mem_cons, List.not_mem_nil, or_false] at hx
    rcases hx with rfl | rfl | rfl
    · exact hf p1
    · exact hf p2
    · exact hf p3
  have hnd : (([(p1, f p1), (p2, f p2), (p3, f p3)]).map Prod.fst).Nodup := by
    simp [h12, h13, h23]
  have hstep0 : step_qkv h (.ok none) (p1, f p1) =
      step_qkv h (.ok (some (mkQKVBuf (f p1)))) (p1, f p1) := by
    simp only [step_qkv, Option.getD_none, Option.getD_some]
  have heq : process_qkv h [(p1, f p1), (p2, f p2), (p3, f p3)] =
      ([(p1, f p1), (p2, f p2), (p3, f p3)]).foldl (step_qkv h)
        (.ok (some (mkQKVBuf (f p1)))) := by
    show ([(p1, f p1), (p2, f p2), (p3, f p3)]).foldl (step_qkv h) (.ok none) =
        ([(p1, f p1), (p2, f p2), (p3, f p3)]).foldl (step_qkv h)
          (.ok (some (mkQKVBuf (f p1))))
    simp only [List.foldl_cons, List.foldl_nil]
    rw [hstep0]
  obtain ⟨b, hfold, hrows, hcols, hslice, hframe⟩ :=
    process_qkv_go h R [(p1, f p1), (p2, f p2), (p3, f p3)] (mkQKVBuf (f p1))
      hsh hnd (hf p1).1
      (by
        show 3 * (f p1).cols = 3 * h
        rw [(hf p1).2])
  have hall : ∀ q : QKVPart, (q, f q) ∈ [(p1, f p1), (p2, f p2), (p3, f p3)] := by
    intro q
    rcases qkv_part_cases p1 p2 p3 q h12 h13 h23 with rfl | rfl | rfl <;> simp
  have hdata : b.data = (canonicalQKV h R f).data := by
    funext r c
    by_cases hc1 : c < h
    · have := hslice (QKVPart.query, f .query) (hall .query) r c hc1
      simp only [qkvStart] at this
      rw [Nat.zero_add] at this
      simp [canonicalQKV, hc1, this]
    · by_cases hc2 : c < 2 * h
      · have hj : c - h < h := by omega
        have := hslice (QKVPart.key, f .key) (hall .key) r (c - h) hj
        simp only [qkvStart] at this
        have hch : h + (c - h) = c := by omega
        rw [hch] at this
        simp [canonicalQKV, hc1, hc2, this]
      · by_cases hc3 : c < 3 * h
        · have hj : c - 2 * h < h := by omega
          have := hslice (QKVPart.value, f .value) (hall .value) r (c - 2 * h) hj
          simp only [qkvStart] at this
          have hch : 2 * h + (c - 2 * h) = c := by omega
          rw [hch] at this
          simp [canonicalQKV, hc1, hc2, hc3, this]
        · have hnone := hframe r c (by
            intro x hx hcon
            have hle := qkvEnd_le_three h x.1
            omega)
          simp [canonicalQKV, hc1, hc2, hc3]
          exact hnone
  have hb : b = canonicalQKV h R f :=
    qkvBufExt b (canonicalQKV h R f) (by rw [hrows]; rfl) (by rw [hcols]; rfl) hdata
  rw [heq, hfold, hb]

theorem generate_initializers_qkv_order_independent_witness :
    (∀ p : QKVPart, (wQArr p).rows = 2 ∧ (wQArr p).cols = 1) ∧
    QKVPart.key ≠ QKVPart.query ∧
    process_qkv 1 [(QKVPart.key, wQArr .key), (QKVPart.query, wQArr .query),
        (QKVPart.value, wQArr .value)] =
      .ok (some (canonicalQKV 1 2 wQArr)) :=
  ⟨fun p => by cases p <;> exact ⟨rfl, rfl⟩,
   by decide,
   generate_initializers_qkv_order_independent 1 2 wQArr
     (fun p => by cases p <;> exact ⟨rfl, rfl⟩)
     QKVPart.key QKVPart.query QKVPart.value (by decide) (by decide) (by decide)⟩
